import Mathlib

/-!
A shallow embedding of `packages/next/src/server/body-streams.ts`:
the push→pull adapter (`requestToBodyStream`), the cloneable body
(`getCloneableBody` with `finalize` / `cloneBodyStream` and the helper
`replaceRequestBody`), and the response drain loops
(`streamReadableToResponse`, `streamReadableStreamToResponse`,
`streamToNodeResponse`).

JavaScript values that matter to this code are modelled by `JsVal`
(with JS truthiness), objects by a list of string-keyed properties plus
an allocation identity, and the event-driven stream code by explicit
traces of events fed to the handlers the source attaches.
-/

namespace BodyStreams

/-- A JavaScript value at the granularity this code observes: primitives,
functions (carrying their bound `this`, `none` when unbound), and object
references (by allocation identity). -/
inductive JsVal where
  | undef : JsVal
  | nullV : JsVal
  | boolV : Bool → JsVal
  | numV : Int → JsVal
  | strV : String → JsVal
  | fnV : Option Nat → JsVal
  | objV : Nat → JsVal
  deriving DecidableEq, Repr

/-- JS truthiness of a `JsVal` (the `if (... && res.error)` test). -/
def truthy : JsVal → Bool
  | .undef => false
  | .nullV => false
  | .boolV b => b
  | .numV n => n ≠ 0
  | .strV s => s ≠ ""
  | .fnV _ => true
  | .objV _ => true

/-- A JavaScript object: an allocation identity and its enumerable
properties in enumeration order (keys unique in any well-formed object). -/
structure Obj where
  id : Nat
  props : List (String × JsVal)
  deriving DecidableEq, Repr

/-- Property assignment `o[k] = v`: overwrite the slot in place when the
key exists, append a new slot otherwise. -/
def setProp : List (String × JsVal) → String → JsVal → List (String × JsVal)
  | [], k, v => [(k, v)]
  | p :: ps, k, v => if p.1 = k then (k, v) :: ps else p :: setProp ps k v

/-- Property lookup `o[k]`. -/
def getProp : List (String × JsVal) → String → Option JsVal
  | [], _ => none
  | p :: ps, k => if p.1 = k then some p.2 else getProp ps k

/-- `v.bind(target)` applied when `typeof v === 'function'`: an unbound
function becomes bound to `target`; a bound function keeps its original
`this` (JS `bind` on a bound function does not re-target it); non-functions
are returned unchanged. -/
def bindVal (target : Nat) : JsVal → JsVal
  | .fnV none => .fnV (some target)
  | v => v

/-- `replaceRequestBody(base, stream)`: for each enumerable property of
`stream`, take its value, bind it to `base` when it is a function, and
assign it onto `base`; `base` keeps its identity and is returned. -/
def replaceRequestBody (base : Obj) (stream : Obj) : Obj :=
  { id := base.id
    props := stream.props.foldl
      (fun acc kv => setProp acc kv.1 (bindVal base.id kv.2)) base.props }

theorem getProp_setProp_self (ps : List (String × JsVal)) (k : String) (v : JsVal) :
    getProp (setProp ps k v) k = some v := by
  induction ps with
  | nil => simp [setProp, getProp]
  | cons p ps ih =>
    by_cases h : p.1 = k
    · simp [setProp, getProp, h]
    · simp [setProp, getProp, h, ih]

theorem getProp_setProp_ne (ps : List (String × JsVal)) (k k' : String) (v : JsVal)
    (h : k ≠ k') : getProp (setProp ps k' v) k = getProp ps k := by
  induction ps with
  | nil =>
    simp only [setProp, getProp, if_neg (Ne.symm h)]
  | cons p ps ih =>
    by_cases hp : p.1 = k'
    · rw [setProp, if_pos hp, getProp, getProp, if_neg (Ne.symm h), hp,
        if_neg (Ne.symm h)]
    · rw [setProp, if_neg hp, getProp, getProp]
      by_cases hk : p.1 = k
      · rw [if_pos hk, if_pos hk]
      · rw [if_neg hk, if_neg hk, ih]

/-- The assignment fold of `replaceRequestBody` leaves keys it never
assigns untouched. -/
theorem getProp_assignFold_notMem (f : JsVal → JsVal) (l : List (String × JsVal))
    (acc : List (String × JsVal)) (k : String) (hk : k ∉ l.map Prod.fst) :
    getProp (l.foldl (fun a kv => setProp a kv.1 (f kv.2)) acc) k = getProp acc k := by
  induction l generalizing acc with
  | nil => simp
  | cons p l ih =>
    simp only [List.map_cons, List.mem_cons] at hk
    push_neg at hk
    simp only [List.foldl_cons]
    rw [ih _ hk.2, getProp_setProp_ne acc k p.1 (f p.2) hk.1]

/-- The assignment fold of `replaceRequestBody` stores `f v` at every key
`k` the iterated object maps to `v` (keys unique, as in any JS object). -/
theorem getProp_assignFold_mem (f : JsVal → JsVal) (l : List (String × JsVal))
    (acc : List (String × JsVal)) (k : String) (v : JsVal)
    (hnd : (l.map Prod.fst).Nodup) (hmem : (k, v) ∈ l) :
    getProp (l.foldl (fun a kv => setProp a kv.1 (f kv.2)) acc) k = some (f v) := by
  induction l generalizing acc with
  | nil => simp at hmem
  | cons p l ih =>
    simp only [List.map_cons, List.nodup_cons] at hnd
    rcases List.mem_cons.mp hmem with h | h
    · subst h
      simp only [List.foldl_cons]
      rw [getProp_assignFold_notMem f l _ k hnd.1, getProp_setProp_self]
    · exact ih _ hnd.2 h

/-- Claim C2 (counterexample): after `replaceRequestBody(base, stream)`
copies the unbound function property `f` of the replacement `stream`
(identity 1) onto the original `base` (identity 0), the copied function is
bound to the original object (identity 0), not to the replacement
(identity 1) — the source reads `v.bind(base)` — so the claim that the
internal `this` refers to the replacement stream fails. -/
theorem C2_replaceRequestBody_binds_to_base_counterexample :
    replaceRequestBody ⟨0, []⟩ ⟨1, [("f", .fnV none)]⟩ =
      ⟨0, [("f", .fnV (some 0))]⟩ ∧
    JsVal.fnV (some 0) ≠ JsVal.fnV (some 1) := by
  constructor
  · rfl
  · decide

/-- Claim C2 (amended): `replaceRequestBody(base, stream)` copies every
property of `stream` onto `base` (binding each unbound function to `base`,
the original object, while an already-bound function keeps its earlier
`this`), leaves properties of `base` at keys `stream` lacks unchanged, and
preserves `base`'s identity. -/
theorem C2_replaceRequestBody_copies_and_binds_to_base (base stream : Obj)
    (hnd : (stream.props.map Prod.fst).Nodup) :
    (∀ k v, (k, v) ∈ stream.props →
      getProp (replaceRequestBody base stream).props k = some (bindVal base.id v)) ∧
    (∀ k, k ∉ stream.props.map Prod.fst →
      getProp (replaceRequestBody base stream).props k = getProp base.props k) ∧
    (replaceRequestBody base stream).id = base.id := by
  refine ⟨fun k v hkv => ?_, fun k hk => ?_, rfl⟩
  · exact getProp_assignFold_mem (bindVal base.id) stream.props base.props k v hnd hkv
  · exact getProp_assignFold_notMem (bindVal base.id) stream.props base.props k hk

/-- Witness for C2's amended theorem at a concrete original and
replacement object. -/
theorem C2_replaceRequestBody_copies_witness :
    getProp (replaceRequestBody ⟨0, [("x", .numV 5)]⟩
      ⟨1, [("g", .fnV none), ("y", .numV 7)]⟩).props "g" =
      some (.fnV (some 0)) ∧
    getProp (replaceRequestBody ⟨0, [("x", .numV 5)]⟩
      ⟨1, [("g", .fnV none), ("y", .numV 7)]⟩).props "x" =
      getProp [("x", .numV 5)] "x" := by
  have h := C2_replaceRequestBody_copies_and_binds_to_base
    ⟨0, [("x", .numV 5)]⟩ ⟨1, [("g", .fnV none), ("y", .numV 7)]⟩ (by decide)
  exact ⟨h.1 "g" (.fnV none) (by decide), h.2.1 "x" (by decide)⟩

/-- The mutable state captured by `getCloneableBody`'s closure: the
original request object `readable` and the `buffered` branch
(`null`/`none` when no clone was taken). -/
structure CBState where
  readable : Obj
  buffered : Option Obj
  deriving DecidableEq, Repr

/-- The settled outcome of `endPromise`: the original stream emitted
`end` (the promise resolves with `undefined`), or emitted `error e`
(the `catch` turns the rejection into a resolution with `{ error: e }`). -/
inductive EndOutcome where
  | ended : EndOutcome
  | errored : JsVal → EndOutcome
  deriving DecidableEq, Repr

/-- `finalize()` once `endPromise` has settled with `outcome`: a no-op
when `buffered` is null; otherwise it throws `res.error` when the guard
`res && typeof res === 'object' && res.error` holds (`res = { error }`
is always a truthy object, so the guard is the truthiness of the error
value), and else runs `replaceRequestBody(readable, buffered)` and sets
`buffered = readable`. Returns the state after the call together with the
thrown error, if any (`none` = the promise resolves). -/
def finalize (st : CBState) (outcome : EndOutcome) : CBState × Option JsVal :=
  match st.buffered with
  | none => (st, none)
  | some b =>
    match outcome with
    | .errored e =>
      if truthy e then (st, some e)
      else
        let r := replaceRequestBody st.readable b
        ({ readable := r, buffered := some r }, none)
    | .ended =>
      let r := replaceRequestBody st.readable b
      ({ readable := r, buffered := some r }, none)

/-- The stream `cloneBodyStream()` tees from: `buffered ?? readable`. -/
def cloneInput (st : CBState) : Obj :=
  st.buffered.getD st.readable

/-- Claim C3 (counterexample): with a clone taken, when the original
stream errors with the falsy value `false`, `finalize()` does **not**
reject with that error — the guard `res.error` is falsy — and instead
mutates the state (it performs the replacement and reassigns `buffered`),
contradicting the claim for this error value. -/
theorem C3_finalize_falsy_error_counterexample :
    (finalize ⟨⟨0, [("x", .numV 1)]⟩, some ⟨1, [("x", .numV 2)]⟩⟩
        (.errored (.boolV false))).2 = none ∧
    (finalize ⟨⟨0, [("x", .numV 1)]⟩, some ⟨1, [("x", .numV 2)]⟩⟩
        (.errored (.boolV false))).1 ≠
      ⟨⟨0, [("x", .numV 1)]⟩, some ⟨1, [("x", .numV 2)]⟩⟩ := by
  refine ⟨rfl, ?_⟩
  decide

/-- Claim C3 (amended): if a clone was taken and the original stream
errored with a truthy error value (every real `Error` object is truthy),
`finalize()` rejects with exactly that error value and leaves the state
unmutated — `replaceRequestBody` is not applied and `buffered` is
unchanged. For a falsy error value the guard fails and `finalize`
performs the replacement instead. -/
theorem C3_finalize_propagates_error (st : CBState) (b : Obj) (e : JsVal)
    (hb : st.buffered = some b) (he : truthy e = true) :
    finalize st (.errored e) = (st, some e) := by
  simp [finalize, hb, he]

/-- Witness for C3's amended theorem at a concrete state and a concrete
(truthy) error value. -/
theorem C3_finalize_propagates_error_witness :
    finalize ⟨⟨0, []⟩, some ⟨1, []⟩⟩ (.errored (.strV "boom")) =
      (⟨⟨0, []⟩, some ⟨1, []⟩⟩, some (.strV "boom")) :=
  C3_finalize_propagates_error ⟨⟨0, []⟩, some ⟨1, []⟩⟩ ⟨1, []⟩ (.strV "boom")
    rfl (by decide)

/-- Claim C9: when no clone was ever taken (`buffered` is null),
`finalize()` resolves successfully and changes nothing — whatever the
outcome of the original stream, the state (both `readable` and
`buffered`) is untouched and no error is thrown. -/
theorem C9_finalize_noop_without_clone (st : CBState) (outcome : EndOutcome)
    (hb : st.buffered = none) :
    finalize st outcome = (st, none) := by
  simp [finalize, hb]

/-- Witness for C9 at a concrete clone-free state, for both a successful
and a failed original stream. -/
theorem C9_finalize_noop_witness :
    finalize ⟨⟨0, [("x", .numV 1)]⟩, none⟩ .ended =
      (⟨⟨0, [("x", .numV 1)]⟩, none⟩, none) ∧
    finalize ⟨⟨0, [("x", .numV 1)]⟩, none⟩ (.errored (.strV "boom")) =
      (⟨⟨0, [("x", .numV 1)]⟩, none⟩, none) :=
  ⟨C9_finalize_noop_without_clone ⟨⟨0, [("x", .numV 1)]⟩, none⟩ .ended rfl,
   C9_finalize_noop_without_clone ⟨⟨0, [("x", .numV 1)]⟩, none⟩
     (.errored (.strV "boom")) rfl⟩

theorem mem_keys_setProp (ps : List (String × JsVal)) (k x : String) (v : JsVal)
    (hx : x ∈ (setProp ps k v).map Prod.fst) :
    x = k ∨ x ∈ ps.map Prod.fst := by
  induction ps with
  | nil => simpa [setProp] using hx
  | cons p ps ih =>
    by_cases hp : p.1 = k
    · rw [setProp, if_pos hp] at hx
      simp only [List.map_cons, List.mem_cons] at hx ⊢
      tauto
    · rw [setProp, if_neg hp] at hx
      simp only [List.map_cons, List.mem_cons] at hx ⊢
      rcases hx with h | h
      · tauto
      · rcases ih h with h' | h' <;> tauto

theorem nodup_keys_setProp (ps : List (String × JsVal)) (k : String) (v : JsVal)
    (hnd : (ps.map Prod.fst).Nodup) :
    ((setProp ps k v).map Prod.fst).Nodup := by
  induction ps with
  | nil => simp [setProp]
  | cons p ps ih =>
    simp only [List.map_cons, List.nodup_cons] at hnd
    by_cases hp : p.1 = k
    · rw [setProp, if_pos hp]
      simp only [List.map_cons, List.nodup_cons]
      exact ⟨hp ▸ hnd.1, hnd.2⟩
    · rw [setProp, if_neg hp]
      simp only [List.map_cons, List.nodup_cons]
      refine ⟨fun hmem => ?_, ih hnd.2⟩
      rcases mem_keys_setProp ps k p.1 v hmem with h | h
      · exact hp h
      · exact hnd.1 h

theorem mem_setProp (ps : List (String × JsVal)) (k : String) (v : JsVal)
    (kv : String × JsVal) (hkv : kv ∈ setProp ps k v) :
    kv ∈ ps ∨ kv = (k, v) := by
  induction ps with
  | nil => simpa [setProp] using hkv
  | cons p ps ih =>
    by_cases hp : p.1 = k
    · rw [setProp, if_pos hp] at hkv
      simp only [List.mem_cons] at hkv ⊢
      tauto
    · rw [setProp, if_neg hp] at hkv
      simp only [List.mem_cons] at hkv ⊢
      rcases hkv with h | h
      · tauto
      · rcases ih h with h' | h' <;> tauto

/-- Every slot of the assignment fold comes from the initial object or
from an assigned `(key, f value)` pair of the iterated object. -/
theorem mem_assignFold (f : JsVal → JsVal) (l acc : List (String × JsVal))
    (kv : String × JsVal)
    (hkv : kv ∈ l.foldl (fun a p => setProp a p.1 (f p.2)) acc) :
    kv ∈ acc ∨ ∃ p ∈ l, kv = (p.1, f p.2) := by
  induction l generalizing acc with
  | nil => exact Or.inl hkv
  | cons p l ih =>
    simp only [List.foldl_cons] at hkv
    rcases ih (setProp acc p.1 (f p.2)) hkv with h | ⟨q, hq, hkvq⟩
    · rcases mem_setProp acc p.1 (f p.2) kv h with h' | h'
      · exact Or.inl h'
      · exact Or.inr ⟨p, List.mem_cons_self p l, h'⟩
    · exact Or.inr ⟨q, List.mem_cons_of_mem p hq, hkvq⟩

theorem nodup_keys_assignFold (f : JsVal → JsVal) (l acc : List (String × JsVal))
    (hnd : (acc.map Prod.fst).Nodup) :
    ((l.foldl (fun a p => setProp a p.1 (f p.2)) acc).map Prod.fst).Nodup := by
  induction l generalizing acc with
  | nil => exact hnd
  | cons p l ih =>
    simp only [List.foldl_cons]
    exact ih _ (nodup_keys_setProp acc p.1 (f p.2) hnd)

/-- Writing a value a key already holds (keys unique) changes nothing. -/
theorem setProp_mem_self (ps : List (String × JsVal)) (k : String) (v : JsVal)
    (hnd : (ps.map Prod.fst).Nodup) (hmem : (k, v) ∈ ps) :
    setProp ps k v = ps := by
  induction ps with
  | nil => simp at hmem
  | cons p ps ih =>
    simp only [List.map_cons, List.nodup_cons] at hnd
    rcases List.mem_cons.mp hmem with h | h
    · rw [setProp, if_pos (congrArg Prod.fst h.symm), h]
    · have hp : p.1 ≠ k := by
        intro hpk
        exact hnd.1 (hpk ▸ List.mem_map_of_mem Prod.fst h)
      rw [setProp, if_neg hp, ih hnd.2 h]

/-- An assignment fold over pairs the target object already holds
verbatim (after `f`) is the identity. -/
theorem assignFold_self (f : JsVal → JsVal) (l ps : List (String × JsVal))
    (hnd : (ps.map Prod.fst).Nodup)
    (hl : ∀ kv ∈ l, kv ∈ ps ∧ f kv.2 = kv.2) :
    l.foldl (fun a p => setProp a p.1 (f p.2)) ps = ps := by
  induction l with
  | nil => rfl
  | cons p l ih =>
    have hp := hl p (List.mem_cons_self p l)
    simp only [List.foldl_cons, hp.2]
    rw [setProp_mem_self ps p.1 p.2 hnd hp.1]
    exact ih fun kv hkv => hl kv (List.mem_cons_of_mem p hkv)

theorem bindVal_bindVal (i j : Nat) (v : JsVal) :
    bindVal j (bindVal i v) = bindVal i v := by
  cases v with
  | fnV o => cases o <;> rfl
  | undef => rfl
  | nullV => rfl
  | boolV b => rfl
  | numV n => rfl
  | strV s => rfl
  | objV n => rfl

theorem bindVal_eq_self (i : Nat) (v : JsVal) (h : v ≠ .fnV none) :
    bindVal i v = v := by
  cases v with
  | fnV o =>
    cases o with
    | none => exact absurd rfl h
    | some j => rfl
  | undef => rfl
  | nullV => rfl
  | boolV b => rfl
  | numV n => rfl
  | strV s => rfl
  | objV n => rfl

/-- Claim C8 (counterexample): a second `finalize()` does not always
reproduce the state of the first. Here the original object carries an
unbound enumerable function at a key (`setTimeout`) the buffered branch
lacks — exactly the shape of a Node `IncomingMessage` next to a
`PassThrough`, whose unbound enumerable prototype methods `for…in`
visits. The first call leaves that function unbound on the merged
object; the second call's `v.bind(base)` re-binds it, changing the
state, so unconditional idempotence fails. -/
theorem C8_finalize_second_call_changes_state_counterexample :
    finalize (finalize ⟨⟨0, [("setTimeout", .fnV none)]⟩,
        some ⟨1, [("read", .fnV none)]⟩⟩ .ended).1 .ended ≠
      ((finalize ⟨⟨0, [("setTimeout", .fnV none)]⟩,
        some ⟨1, [("read", .fnV none)]⟩⟩ .ended).1, none) := by
  decide

/-- Claim C8 (amended): after a successful `finalize()` (clone taken,
original stream ended), `buffered` holds exactly the reassigned original
object, and a subsequent `cloneBodyStream()` input (`buffered ??
readable`) is that replacement-carrying object, unconditionally; a
second `finalize()` reproduces the same final state only when the
original object has unique keys and no unbound enumerable function
properties (then `replaceRequestBody(readable, readable)` rewrites every
slot with its own value) — in general the second call re-binds unbound
functions left over from the original's own keys and so changes the
object. -/
theorem C8_finalize_buffered_is_readable_and_bound_idempotent
    (st : CBState) (b : Obj) (hb : st.buffered = some b) :
    (finalize st .ended).1.buffered = some (finalize st .ended).1.readable ∧
    cloneInput (finalize st .ended).1 = (finalize st .ended).1.readable ∧
    ((st.readable.props.map Prod.fst).Nodup →
      (∀ kv ∈ st.readable.props, kv.2 ≠ JsVal.fnV none) →
      finalize (finalize st .ended).1 .ended =
        ((finalize st .ended).1, none)) := by
  have h1 : finalize st .ended =
      (⟨replaceRequestBody st.readable b, some (replaceRequestBody st.readable b)⟩,
        none) := by
    simp [finalize, hb]
  set r1 := replaceRequestBody st.readable b with hr1
  rw [h1]
  refine ⟨rfl, rfl, fun hnd hfn => ?_⟩
  have hndr1 : (r1.props.map Prod.fst).Nodup :=
    nodup_keys_assignFold (bindVal st.readable.id) b.props st.readable.props hnd
  have hid : r1.id = st.readable.id := rfl
  have hfix : ∀ kv ∈ r1.props, bindVal r1.id kv.2 = kv.2 := by
    intro kv hkv
    rcases mem_assignFold (bindVal st.readable.id) b.props st.readable.props kv hkv
      with h | ⟨p, _, hp⟩
    · exact hid ▸ bindVal_eq_self st.readable.id kv.2 (hfn kv h)
    · rw [hp, hid]
      exact bindVal_bindVal st.readable.id st.readable.id p.2
  have h2 : replaceRequestBody r1 r1 = r1 := by
    have hprops : r1.props.foldl
        (fun a p => setProp a p.1 (bindVal r1.id p.2)) r1.props = r1.props :=
      assignFold_self (bindVal r1.id) r1.props r1.props hndr1
        fun kv hkv => ⟨hkv, hfix kv hkv⟩
    simp only [replaceRequestBody]
    rw [hprops]
  simp [finalize, h2]

/-- Witness for C8's amended theorem at a concrete state: the original
object holds one bound method (discharging the idempotence side
conditions), the buffered branch holds an unbound method and a data
property. -/
theorem C8_finalize_amended_witness :
    (finalize ⟨⟨0, [("m", .fnV (some 0))]⟩,
        some ⟨1, [("m", .fnV none), ("y", .numV 7)]⟩⟩ .ended).1.buffered =
      some (finalize ⟨⟨0, [("m", .fnV (some 0))]⟩,
        some ⟨1, [("m", .fnV none), ("y", .numV 7)]⟩⟩ .ended).1.readable ∧
    cloneInput (finalize ⟨⟨0, [("m", .fnV (some 0))]⟩,
        some ⟨1, [("m", .fnV none), ("y", .numV 7)]⟩⟩ .ended).1 =
      (finalize ⟨⟨0, [("m", .fnV (some 0))]⟩,
        some ⟨1, [("m", .fnV none), ("y", .numV 7)]⟩⟩ .ended).1.readable ∧
    finalize (finalize ⟨⟨0, [("m", .fnV (some 0))]⟩,
        some ⟨1, [("m", .fnV none), ("y", .numV 7)]⟩⟩ .ended).1 .ended =
      ((finalize ⟨⟨0, [("m", .fnV (some 0))]⟩,
        some ⟨1, [("m", .fnV none), ("y", .numV 7)]⟩⟩ .ended).1, none) := by
  have h := C8_finalize_buffered_is_readable_and_bound_idempotent
    ⟨⟨0, [("m", .fnV (some 0))]⟩, some ⟨1, [("m", .fnV none), ("y", .numV 7)]⟩⟩
    ⟨1, [("m", .fnV none), ("y", .numV 7)]⟩ rfl
  exact ⟨h.1, h.2.1, h.2.2 (by decide) (by decide)⟩

/-- An event emitted by a push stream: a `data` chunk (a byte sequence),
`end`, or `error`. -/
inductive StreamEv where
  | dataEv : List Nat → StreamEv
  | endEv : StreamEv
  | errorEv : JsVal → StreamEv
  deriving DecidableEq, Repr

/-- One `PassThrough` branch of the tee, as the clone listeners drive it:
the chunks pushed so far, whether `push(null)` (end of stream) was pushed,
and whether any error was signalled to it. -/
structure Branch where
  chunks : List (List Nat)
  ended : Bool
  errored : Bool
  deriving DecidableEq, Repr

/-- The listeners `cloneBodyStream()` attaches to `input`: on `data`,
push the chunk into both branches; on `end`, push `null` into both. No
`error` listener is attached, so an input error reaches neither branch. -/
def cloneHandlers (s : Branch × Branch) : StreamEv → Branch × Branch
  | .dataEv c =>
    ({ s.1 with chunks := s.1.chunks ++ [c] },
     { s.2 with chunks := s.2.chunks ++ [c] })
  | .endEv =>
    ({ s.1 with ended := true }, { s.2 with ended := true })
  | .errorEv _ => s

/-- Both branches start as fresh, empty `PassThrough` streams; the
listeners then process every input event emitted after attachment. The
first component is the branch returned to the caller (`p1`), the second
the branch stored in `buffered` (`p2`). -/
def cloneBodyStreamRun (events : List StreamEv) : Branch × Branch :=
  events.foldl cloneHandlers (⟨[], false, false⟩, ⟨[], false, false⟩)

/-- The payloads of the `data` events of a trace, in emission order. -/
def dataChunks (events : List StreamEv) : List (List Nat) :=
  events.filterMap fun e =>
    match e with
    | .dataEv c => some c
    | _ => none

theorem cloneHandlers_fold_chunks (events : List StreamEv) (s : Branch × Branch) :
    (events.foldl cloneHandlers s).1.chunks = s.1.chunks ++ dataChunks events ∧
    (events.foldl cloneHandlers s).2.chunks = s.2.chunks ++ dataChunks events := by
  induction events generalizing s with
  | nil => simp [dataChunks]
  | cons e events ih =>
    rcases ih (cloneHandlers s e) with ⟨h1, h2⟩
    simp only [List.foldl_cons]
    rw [h1, h2]
    cases e <;> simp [cloneHandlers, dataChunks]

/-- Claim C1: with the clone's listeners attached after `pre` (so they
observe exactly the events emitted from the point of call onward), both
the branch returned to the caller and the branch stored in `buffered`
receive byte-for-byte identical copies of every chunk the input emits
afterward, in emission order, and no chunk emitted before the call is
delivered to either branch. -/
theorem C1_cloneBodyStream_tee (pre post : List StreamEv) :
    (cloneBodyStreamRun ((pre ++ post).drop pre.length)).1.chunks =
      dataChunks post ∧
    (cloneBodyStreamRun ((pre ++ post).drop pre.length)).2.chunks =
      dataChunks post := by
  rw [List.drop_left]
  rcases cloneHandlers_fold_chunks post (⟨[], false, false⟩, ⟨[], false, false⟩)
    with ⟨h1, h2⟩
  exact ⟨by simpa using h1, by simpa using h2⟩

theorem cloneHandlers_fold_errored (events : List StreamEv) (s : Branch × Branch) :
    (events.foldl cloneHandlers s).1.errored = s.1.errored ∧
    (events.foldl cloneHandlers s).2.errored = s.2.errored := by
  induction events generalizing s with
  | nil => exact ⟨rfl, rfl⟩
  | cons e events ih =>
    rcases ih (cloneHandlers s e) with ⟨h1, h2⟩
    cases e <;> simpa [cloneHandlers] using ⟨h1, h2⟩

theorem cloneHandlers_fold_ended (events : List StreamEv) (s : Branch × Branch)
    (hne : StreamEv.endEv ∉ events) :
    (events.foldl cloneHandlers s).1.ended = s.1.ended ∧
    (events.foldl cloneHandlers s).2.ended = s.2.ended := by
  induction events generalizing s with
  | nil => exact ⟨rfl, rfl⟩
  | cons e events ih =>
    simp only [List.mem_cons] at hne
    push_neg at hne
    rcases ih (cloneHandlers s e) hne.2 with ⟨h1, h2⟩
    cases e with
    | dataEv c => simpa [cloneHandlers] using ⟨h1, h2⟩
    | endEv => exact absurd rfl hne.1
    | errorEv err => simpa [cloneHandlers] using ⟨h1, h2⟩

/-- Claim C10: if, after the clone's listeners are attached, the input
emits an error without ever emitting `end`, neither the returned branch
nor the buffered branch receives an end-of-stream or an error signal —
`cloneBodyStream()` attaches only `data` and `end` listeners, so both
branches stay open. -/
theorem C10_clone_input_error_reaches_neither_branch (pre : List StreamEv)
    (e : JsVal) (hne : StreamEv.endEv ∉ pre) :
    (cloneBodyStreamRun (pre ++ [.errorEv e])).1.ended = false ∧
    (cloneBodyStreamRun (pre ++ [.errorEv e])).2.ended = false ∧
    (cloneBodyStreamRun (pre ++ [.errorEv e])).1.errored = false ∧
    (cloneBodyStreamRun (pre ++ [.errorEv e])).2.errored = false := by
  have hne' : StreamEv.endEv ∉ pre ++ [StreamEv.errorEv e] := by
    simp [hne]
  rcases cloneHandlers_fold_ended (pre ++ [.errorEv e])
    (⟨[], false, false⟩, ⟨[], false, false⟩) hne' with ⟨h1, h2⟩
  rcases cloneHandlers_fold_errored (pre ++ [.errorEv e])
    (⟨[], false, false⟩, ⟨[], false, false⟩) with ⟨h3, h4⟩
  exact ⟨h1, h2, h3, h4⟩

/-- Witness for C10: the input emits one chunk and then errors. -/
theorem C10_clone_input_error_witness :
    (cloneBodyStreamRun ([.dataEv [1, 2]] ++ [.errorEv (.strV "boom")])).1.ended
      = false ∧
    (cloneBodyStreamRun ([.dataEv [1, 2]] ++ [.errorEv (.strV "boom")])).2.ended
      = false ∧
    (cloneBodyStreamRun
        ([.dataEv [1, 2]] ++ [.errorEv (.strV "boom")])).1.errored = false ∧
    (cloneBodyStreamRun
        ([.dataEv [1, 2]] ++ [.errorEv (.strV "boom")])).2.errored = false :=
  C10_clone_input_error_reaches_neither_branch [.dataEv [1, 2]] (.strV "boom")
    (by decide)

/-- A byte buffer with its allocation identity: `id` models the
underlying memory allocation (two buffers alias iff they share `id`),
`bytes` its contents. -/
structure Buf where
  id : Nat
  bytes : List Nat
  deriving DecidableEq, Repr

/-- An event of the push-style source stream feeding the adapter. -/
inductive PushBufEv where
  | dataEv : Buf → PushBufEv
  | endEv : PushBufEv
  | errorEv : JsVal → PushBufEv
  deriving DecidableEq, Repr

/-- An action the adapter performs on the pull-stream controller. -/
inductive CtrlAct where
  | enqueue : Buf → CtrlAct
  | close : CtrlAct
  | errorAct : JsVal → CtrlAct
  deriving DecidableEq, Repr

/-- The listeners `requestToBodyStream` attaches in `start(controller)`:
on `data`, `controller.enqueue(new KUint8Array([...new Uint8Array(chunk)]))`
— a freshly allocated buffer (ids `n0, n0+1, ...`) holding a copy of the
chunk's bytes; on `end`, `controller.close()`; on `error`,
`controller.error(err)`. -/
def requestToBodyStreamActs : List PushBufEv → Nat → List CtrlAct
  | [], _ => []
  | .dataEv b :: rest, fresh =>
    .enqueue ⟨fresh, b.bytes⟩ :: requestToBodyStreamActs rest (fresh + 1)
  | .endEv :: rest, fresh => .close :: requestToBodyStreamActs rest fresh
  | .errorEv e :: rest, fresh => .errorAct e :: requestToBodyStreamActs rest fresh

/-- How a push stream terminates: a single `end` or a single `error`. -/
inductive Terminal where
  | tEnd : Terminal
  | tErr : JsVal → Terminal
  deriving DecidableEq, Repr

/-- The event trace of a push stream emitting `chunks` and then its
terminal event. -/
def mkPushTrace (chunks : List Buf) : Terminal → List PushBufEv
  | .tEnd => chunks.map .dataEv ++ [.endEv]
  | .tErr e => chunks.map .dataEv ++ [.errorEv e]

/-- The controller action a terminal event maps to. -/
def termAct : Terminal → CtrlAct
  | .tEnd => .close
  | .tErr e => .errorAct e

theorem mem_enumFrom_fst_ge (l : List Buf) (n : Nat) (p : Nat × Buf)
    (hp : p ∈ l.enumFrom n) : n ≤ p.1 := by
  induction l generalizing n with
  | nil => simp [List.enumFrom] at hp
  | cons b bs ih =>
    rcases List.mem_cons.mp hp with h | h
    · rw [h]
    · exact Nat.le_of_succ_le (ih (n + 1) h)

theorem requestToBodyStreamActs_data (chunks : List Buf) (tail : List PushBufEv)
    (n0 : Nat) :
    requestToBodyStreamActs (chunks.map .dataEv ++ tail) n0 =
      ((chunks.enumFrom n0).map fun p => .enqueue ⟨p.1, p.2.bytes⟩) ++
        requestToBodyStreamActs tail (n0 + chunks.length) := by
  induction chunks generalizing n0 with
  | nil => simp [requestToBodyStreamActs, List.enumFrom]
  | cons b bs ih =>
    simp only [List.map_cons, List.cons_append, requestToBodyStreamActs]
    rw [List.append_eq, ih,
      (by omega : n0 + 1 + bs.length = n0 + (bs.length + 1))]
    simp [List.enumFrom]

/-- Claim C6: the pull stream built by `requestToBodyStream` performs, in
order, one enqueue per source chunk carrying a byte-identical copy in a
freshly allocated buffer (ids `n0, n0 + 1, ...`), then closes the
controller on the source's `end` or propagates the source's error value
through the controller's error path; under the hypothesis that the fresh
ids start above every source buffer id, no enqueued buffer aliases a
source buffer. -/
theorem C6_requestToBodyStream_adapts (chunks : List Buf) (t : Terminal)
    (n0 : Nat) (hids : ∀ b ∈ chunks, b.id < n0) :
    requestToBodyStreamActs (mkPushTrace chunks t) n0 =
      ((chunks.enumFrom n0).map fun p => .enqueue ⟨p.1, p.2.bytes⟩) ++
        [termAct t] ∧
    (∀ a ∈ requestToBodyStreamActs (mkPushTrace chunks t) n0, ∀ b',
      a = .enqueue b' → ∀ b ∈ chunks, b'.id ≠ b.id) := by
  have hmain : requestToBodyStreamActs (mkPushTrace chunks t) n0 =
      ((chunks.enumFrom n0).map fun p => .enqueue ⟨p.1, p.2.bytes⟩) ++
        [termAct t] := by
    cases t with
    | tEnd =>
      rw [mkPushTrace, requestToBodyStreamActs_data]
      rfl
    | tErr e =>
      rw [mkPushTrace, requestToBodyStreamActs_data]
      rfl
  refine ⟨hmain, fun a ha b' hab b hb => ?_⟩
  rw [hmain] at ha
  rcases List.mem_append.mp ha with h | h
  · rcases List.mem_map.mp h with ⟨p, hpmem, hp⟩
    rw [hab] at hp
    have hid : b'.id = p.1 := by
      have := congrArg
        (fun x => match x with | CtrlAct.enqueue bb => bb.id | _ => 0) hp
      simpa using this.symm
    have hge := mem_enumFrom_fst_ge chunks n0 p hpmem
    have hblt := hids b hb
    omega
  · cases t with
    | tEnd => simp [termAct, hab] at h
    | tErr e => simp [termAct, hab] at h

/-- Witness for C6 at a concrete two-chunk source ending normally. -/
theorem C6_requestToBodyStream_adapts_witness :
    requestToBodyStreamActs
        (mkPushTrace ([⟨0, [7, 8]⟩, ⟨1, [9]⟩] : List Buf) .tEnd) 10 =
      ((([⟨0, [7, 8]⟩, ⟨1, [9]⟩] : List Buf).enumFrom 10).map
        fun p => .enqueue ⟨p.1, p.2.bytes⟩) ++ [termAct .tEnd] ∧
    (∀ a ∈ requestToBodyStreamActs
        (mkPushTrace ([⟨0, [7, 8]⟩, ⟨1, [9]⟩] : List Buf) .tEnd) 10, ∀ b',
      a = .enqueue b' → ∀ b ∈ ([⟨0, [7, 8]⟩, ⟨1, [9]⟩] : List Buf),
        b'.id ≠ b.id) :=
  C6_requestToBodyStream_adapts [⟨0, [7, 8]⟩, ⟨1, [9]⟩] .tEnd 10 (by decide)

/-- The state of `streamReadableStreamToResponse`'s pull-drain loop.
`chunks`/`term` model the reader's remaining content (`term = none`: the
stream closes cleanly after the chunks; `term = some e`: `read()` then
rejects with `e`); `cancelled` records `reader.cancel()` (pending and
later reads resolve `{done: true}`); `finished` records that the
`try`/`finally` completed; `openAtExit` is the value `responseOpen` had
when the `finally` block ran (`none` while the loop is still running);
`errored` is the error the loop re-threw to the drain's awaiter. -/
structure PullDrain where
  chunks : List (List Nat)
  term : Option JsVal
  cancelled : Bool
  responseOpen : Bool
  streamDone : Bool
  finished : Bool
  openAtExit : Option Bool
  errored : Option JsVal
  writes : List (List Nat)
  endCount : Nat
  cancelCount : Nat
  deriving DecidableEq, Repr

/-- A scheduler step for the pull drain: one loop iteration reaching its
next `await` (or the loop exit), or delivery of the response's `close`
event at an `await` point. -/
inductive PullEv where
  | iter : PullEv
  | closeEv : PullEv
  deriving DecidableEq, Repr

/-- The loop exit: the `finally` block runs once — `if (responseOpen)
response.end()` — recording the sink state at exit. -/
def pullExit (s : PullDrain) : PullDrain :=
  { s with
    finished := true
    openAtExit := some s.responseOpen
    endCount := s.endCount + (if s.responseOpen then 1 else 0) }

/-- One scheduler step of `streamReadableStreamToResponse`. `closeEv`
runs the response `close` handler: `responseOpen = false; if (!streamDone)
{ streamDone = true; reader.cancel() }`. `iter` runs the loop from its
`while (responseOpen)` check: a completed loop is unchanged; a closed
response exits through `finally`; otherwise `read()` yields `done` (after
a cancel, or when the content is exhausted with a clean close — marking
`streamDone` and breaking), throws the reader's error (caught: mark
`streamDone`, rethrow after `finally`), or yields a chunk which is
written to the response. -/
def pullStep (s : PullDrain) : PullEv → PullDrain
  | .closeEv =>
    let s' := { s with responseOpen := false }
    if s'.streamDone then s'
    else
      { s' with
        streamDone := true
        cancelled := true
        cancelCount := s'.cancelCount + 1 }
  | .iter =>
    if s.finished then s
    else if s.responseOpen = false then pullExit s
    else if s.cancelled then pullExit { s with streamDone := true }
    else
      match s.chunks with
      | c :: rest => { s with chunks := rest, writes := s.writes ++ [c] }
      | [] =>
        match s.term with
        | none => pullExit { s with streamDone := true }
        | some e => pullExit { s with streamDone := true, errored := some e }

/-- Run the pull drain under a schedule of steps. -/
def runPull (s : PullDrain) (evs : List PullEv) : PullDrain :=
  evs.foldl pullStep s

/-- The drain's state right after `getReader()`: nothing read, response
open, no cancel, loop not yet exited. -/
def mkPullDrain (chunks : List (List Nat)) (term : Option JsVal) : PullDrain :=
  ⟨chunks, term, false, true, false, false, none, none, [], 0, 0⟩

/-- `response.end()` is called exactly when the `finally` block runs with
the response still open. -/
def endCallInv (s : PullDrain) : Prop :=
  s.endCount = (match s.openAtExit with | some true => 1 | _ => 0) ∧
  (s.finished ↔ s.openAtExit.isSome)

theorem pullStep_endCallInv (s : PullDrain) (e : PullEv) (h : endCallInv s) :
    endCallInv (pullStep s e) := by
  rcases h with ⟨h1, h2⟩
  cases e with
  | closeEv =>
    by_cases hd : s.streamDone <;> simp [pullStep, hd, endCallInv, h1, h2]
  | iter =>
    by_cases hf : s.finished
    · have heq : pullStep s .iter = s := by simp [pullStep, hf]
      rw [heq]
      exact ⟨h1, h2⟩
    · have hoe : s.openAtExit = none := by
        cases hoa : s.openAtExit with
        | none => rfl
        | some b => rw [hoa] at h2; simp [hf] at h2
      have hec : s.endCount = 0 := by rw [h1, hoe]
      by_cases ho : s.responseOpen = false
      · simp [pullStep, hf, ho, endCallInv, pullExit, hec]
      · have hot : s.responseOpen = true := by simpa using ho
        by_cases hc : s.cancelled
        · simp [pullStep, hf, hot, hc, endCallInv, pullExit, hec]
        · cases hch : s.chunks with
          | cons c rest =>
            simp [pullStep, hf, hot, hc, hch, endCallInv, hec, hoe, hf]
          | nil =>
            cases ht : s.term with
            | none =>
              simp [pullStep, hf, hot, hc, hch, ht, endCallInv, pullExit, hec]
            | some err =>
              simp [pullStep, hf, hot, hc, hch, ht, endCallInv, pullExit, hec]

theorem runPull_endCallInv (evs : List PullEv) (s : PullDrain)
    (h : endCallInv s) : endCallInv (runPull s evs) := by
  induction evs generalizing s with
  | nil => exact h
  | cons e evs ih => exact ih (pullStep s e) (pullStep_endCallInv s e h)

/-- Claim C4: in the pull-drain loop, under every schedule of loop steps
and response-close deliveries (covering normal completion, a read error,
and cancellation after the sink's close), `response.end()` is called at
most once; it is called exactly once when the loop exits with the sink
still open, and never otherwise — no double-close and no exit leaving an
open sink unclosed. -/
theorem C4_pull_drain_ends_response_once (chunks : List (List Nat))
    (term : Option JsVal) (evs : List PullEv) :
    (runPull (mkPullDrain chunks term) evs).endCount ≤ 1 ∧
    ((runPull (mkPullDrain chunks term) evs).openAtExit = some true →
      (runPull (mkPullDrain chunks term) evs).endCount = 1) ∧
    ((runPull (mkPullDrain chunks term) evs).openAtExit ≠ some true →
      (runPull (mkPullDrain chunks term) evs).endCount = 0) := by
  have h := runPull_endCallInv evs (mkPullDrain chunks term)
    ⟨rfl, by simp [mkPullDrain]⟩
  rcases h with ⟨h1, _⟩
  refine ⟨?_, fun ho => by rw [h1, ho], fun ho => ?_⟩
  · rw [h1]
    cases hoa : (runPull (mkPullDrain chunks term) evs).openAtExit with
    | none => simp
    | some b => cases b <;> simp
  · rw [h1]
    cases hoa : (runPull (mkPullDrain chunks term) evs).openAtExit with
    | none => simp
    | some b =>
      cases b with
      | true => exact absurd hoa ho
      | false => simp

/-- Witness for C4: a one-chunk stream drained to completion (the sink is
open at exit, so `end()` fires once), and the same stream with the sink
closed before the loop runs (the loop exits with the sink closed and
`end()` never fires). -/
theorem C4_pull_drain_ends_response_once_witness :
    (runPull (mkPullDrain [[1]] none) [.iter, .iter, .iter]).endCount = 1 ∧
    (runPull (mkPullDrain [[1]] none) [.closeEv, .iter]).endCount = 0 :=
  ⟨(C4_pull_drain_ends_response_once [[1]] none [.iter, .iter, .iter]).2.1
      (by decide),
   (C4_pull_drain_ends_response_once [[1]] none [.closeEv, .iter]).2.2
      (by decide)⟩

/-- The state of `streamReadableToResponse`'s push-style drain:
`detached` records that `onClose` ran and removed the listeners;
`destroyed` records `stream.destroy()` (a destroyed stream emits no
further `data`/`end`). -/
structure PushDrain where
  responseOpen : Bool
  streamDone : Bool
  detached : Bool
  destroyed : Bool
  writes : List (List Nat)
  endCount : Nat
  destroyCount : Nat
  deriving DecidableEq, Repr

/-- An event delivered to the push drain: a source `data`/`end`, a source
`error` or `close` (both handled by `onClose`), or the response's `close`. -/
inductive PushDrainEv where
  | dataEv : List Nat → PushDrainEv
  | endEv : PushDrainEv
  | errorEv : PushDrainEv
  | closeSrcEv : PushDrainEv
  | closeRespEv : PushDrainEv
  deriving DecidableEq, Repr

/-- One event of `streamReadableToResponse`: `onData` writes the chunk,
`onEnd` marks the stream done, `onClose` (source `error`/`close`) calls
`response.end()` when the response is still open and then detaches every
listener; the response `close` handler marks the response closed and, if
the stream is not yet done, marks it done and destroys it. Detached
listeners receive nothing; a destroyed stream emits no `data`/`end`. -/
def pushDrainStep (s : PushDrain) : PushDrainEv → PushDrain
  | .dataEv c =>
    if s.detached ∨ s.destroyed then s
    else { s with writes := s.writes ++ [c] }
  | .endEv =>
    if s.detached ∨ s.destroyed then s
    else { s with streamDone := true }
  | .errorEv =>
    if s.detached then s
    else
      { s with
        endCount := s.endCount + (if s.responseOpen then 1 else 0)
        detached := true }
  | .closeSrcEv =>
    if s.detached then s
    else
      { s with
        endCount := s.endCount + (if s.responseOpen then 1 else 0)
        detached := true }
  | .closeRespEv =>
    let s' := { s with responseOpen := false }
    if s'.streamDone then s'
    else
      { s' with
        streamDone := true
        destroyed := true
        destroyCount := s'.destroyCount + 1 }

/-- Run the push drain under a sequence of delivered events. -/
def runPush (s : PushDrain) (evs : List PushDrainEv) : PushDrain :=
  evs.foldl pushDrainStep s

/-- The drain state right after the listeners are attached. -/
def mkPushDrain : PushDrain :=
  ⟨true, false, false, false, [], 0, 0⟩

theorem pushDrainStep_streamDone_mono (s : PushDrain) (e : PushDrainEv)
    (h : s.streamDone = true) : (pushDrainStep s e).streamDone = true := by
  cases e <;> simp [pushDrainStep, h] <;> split <;> simp [h]

theorem runPush_streamDone_mono (evs : List PushDrainEv) (s : PushDrain)
    (h : s.streamDone = true) : (runPush s evs).streamDone = true := by
  induction evs generalizing s with
  | nil => exact h
  | cons e evs ih =>
    exact ih (pushDrainStep s e) (pushDrainStep_streamDone_mono s e h)

theorem pushDrainStep_destroyCount_of_notDone (s : PushDrain) (e : PushDrainEv)
    (h : s.streamDone = false)
    (hstep : (pushDrainStep s e).streamDone = false)
    (hd : s.destroyCount = 0) :
    (pushDrainStep s e).destroyCount = 0 := by
  cases e with
  | dataEv c =>
    by_cases hg : s.detached ∨ s.destroyed <;> simp [pushDrainStep, hg, hd]
  | endEv =>
    by_cases hg : s.detached ∨ s.destroyed <;> simp [pushDrainStep, hg, hd]
  | errorEv =>
    by_cases hg : s.detached <;> simp [pushDrainStep, hg, hd]
  | closeSrcEv =>
    by_cases hg : s.detached <;> simp [pushDrainStep, hg, hd]
  | closeRespEv => simp [pushDrainStep, h] at hstep

theorem runPush_destroyCount_of_notDone (evs : List PushDrainEv) (s : PushDrain)
    (h : (runPush s evs).streamDone = false) (hd : s.destroyCount = 0) :
    (runPush s evs).destroyCount = 0 := by
  induction evs generalizing s with
  | nil => exact hd
  | cons e evs ih =>
    have hfinal : (runPush (pushDrainStep s e) evs).streamDone = false := h
    have hstep : (pushDrainStep s e).streamDone = false := by
      by_contra hb
      have hb' : (pushDrainStep s e).streamDone = true := by simpa using hb
      have := runPush_streamDone_mono evs (pushDrainStep s e) hb'
      rw [this] at hfinal
      simp at hfinal
    have hs' : s.streamDone = false := by
      by_contra hb
      have hb' : s.streamDone = true := by simpa using hb
      have h1 := pushDrainStep_streamDone_mono s e hb'
      rw [h1] at hstep
      simp at hstep
    exact ih (pushDrainStep s e) h
      (pushDrainStep_destroyCount_of_notDone s e hs' hstep hd)

/-- Once destroyed and done, the push drain writes nothing more and never
destroys again. -/
theorem runPush_frozen_after_destroy (evs : List PushDrainEv) (s : PushDrain)
    (hdes : s.destroyed = true) (hdone : s.streamDone = true) :
    (runPush s evs).writes = s.writes ∧
    (runPush s evs).destroyCount = s.destroyCount := by
  induction evs generalizing s with
  | nil => exact ⟨rfl, rfl⟩
  | cons e evs ih =>
    have hstep : (pushDrainStep s e).writes = s.writes ∧
        (pushDrainStep s e).destroyCount = s.destroyCount ∧
        (pushDrainStep s e).destroyed = true ∧
        (pushDrainStep s e).streamDone = true := by
      cases e <;> simp [pushDrainStep, hdes, hdone] <;> split <;>
        simp [hdes, hdone]
    rcases ih (pushDrainStep s e) hstep.2.2.1 hstep.2.2.2 with ⟨hw, hd⟩
    exact ⟨hw.trans hstep.1, hd.trans hstep.2.1⟩

theorem runPull_streamDone_mono (evs : List PullEv) (s : PullDrain)
    (h : s.streamDone = true) : (runPull s evs).streamDone = true := by
  induction evs generalizing s with
  | nil => exact h
  | cons e evs ih =>
    refine ih (pullStep s e) ?_
    cases e with
    | closeEv => simp [pullStep, h]
    | iter =>
      by_cases hf : s.finished
      · simpa [pullStep, hf] using h
      · by_cases ho : s.responseOpen = false
        · simpa [pullStep, hf, ho, pullExit] using h
        · have hot : s.responseOpen = true := by simpa using ho
          by_cases hc : s.cancelled
          · simp [pullStep, hf, hot, hc, pullExit]
          · cases hch : s.chunks with
            | cons c rest => simpa [pullStep, hf, hot, hc, hch] using h
            | nil =>
              cases ht : s.term with
              | none => simp [pullStep, hf, hot, hc, hch, ht, pullExit]
              | some err => simp [pullStep, hf, hot, hc, hch, ht, pullExit]

theorem pullStep_cancelCount_of_notDone (s : PullDrain) (e : PullEv)
    (h : s.streamDone = false)
    (hstep : (pullStep s e).streamDone = false)
    (hc : s.cancelCount = 0) :
    (pullStep s e).cancelCount = 0 := by
  cases e with
  | closeEv => simp [pullStep, h] at hstep
  | iter =>
    by_cases hf : s.finished
    · simpa [pullStep, hf] using hc
    · by_cases ho : s.responseOpen = false
      · simpa [pullStep, hf, ho, pullExit] using hc
      · have hot : s.responseOpen = true := by simpa using ho
        by_cases hcc : s.cancelled
        · simpa [pullStep, hf, hot, hcc, pullExit] using hc
        · cases hch : s.chunks with
          | cons c rest => simpa [pullStep, hf, hot, hcc, hch] using hc
          | nil =>
            cases ht : s.term with
            | none => simpa [pullStep, hf, hot, hcc, hch, ht, pullExit] using hc
            | some err =>
              simpa [pullStep, hf, hot, hcc, hch, ht, pullExit] using hc

theorem runPull_cancelCount_of_notDone (evs : List PullEv) (s : PullDrain)
    (h : (runPull s evs).streamDone = false) (hc : s.cancelCount = 0) :
    (runPull s evs).cancelCount = 0 := by
  induction evs generalizing s with
  | nil => exact hc
  | cons e evs ih =>
    have hfinal : (runPull (pullStep s e) evs).streamDone = false := h
    have hstep : (pullStep s e).streamDone = false := by
      by_contra hb
      have hb' : (pullStep s e).streamDone = true := by simpa using hb
      have := runPull_streamDone_mono evs (pullStep s e) hb'
      rw [this] at hfinal
      simp at hfinal
    have hs' : s.streamDone = false := by
      by_contra hb
      have hb' : s.streamDone = true := by simpa using hb
      have h1 : (pullStep s e).streamDone = true :=
        runPull_streamDone_mono [] (pullStep s e)
          (by
            have := runPull_streamDone_mono [e] s hb'
            simpa [runPull] using this)
      rw [h1] at hstep
      simp at hstep
    exact ih (pullStep s e) h
      (pullStep_cancelCount_of_notDone s e hs' hstep hc)

/-- After the response closes (and the guarded cancel ran), the pull
drain writes nothing more and never cancels again. -/
theorem runPull_frozen_after_close (evs : List PullEv) (s : PullDrain)
    (ho : s.responseOpen = false) (hdone : s.streamDone = true) :
    (runPull s evs).writes = s.writes ∧
    (runPull s evs).cancelCount = s.cancelCount := by
  induction evs generalizing s with
  | nil => exact ⟨rfl, rfl⟩
  | cons e evs ih =>
    have hstep : (pullStep s e).writes = s.writes ∧
        (pullStep s e).cancelCount = s.cancelCount ∧
        (pullStep s e).responseOpen = false ∧
        (pullStep s e).streamDone = true := by
      cases e with
      | closeEv => simp [pullStep, hdone, ho]
      | iter =>
        by_cases hf : s.finished
        · simp [pullStep, hf, ho, hdone]
        · simp [pullStep, hf, ho, pullExit, hdone]
    rcases ih (pullStep s e) hstep.2.2.1 hstep.2.2.2 with ⟨hw, hd⟩
    exact ⟨hw.trans hstep.1, hd.trans hstep.2.1⟩

/-- Claim C5: for both drain flavors, once the sink signals `close`
before the source is done, no further chunk is written to the sink and
the source is destroyed (push style) or cancelled (pull style) exactly
once, however many further events — including repeated close signals —
are delivered afterwards; the `streamDone` flag guards re-entry. -/
theorem C5_close_stops_writes_and_cancels_once :
    (∀ (pre post : List PushDrainEv),
      (runPush mkPushDrain pre).streamDone = false →
      (runPush mkPushDrain (pre ++ .closeRespEv :: post)).writes =
        (runPush mkPushDrain pre).writes ∧
      (runPush mkPushDrain (pre ++ .closeRespEv :: post)).destroyCount = 1) ∧
    (∀ (chunks : List (List Nat)) (term : Option JsVal)
      (pre post : List PullEv),
      (runPull (mkPullDrain chunks term) pre).streamDone = false →
      (runPull (mkPullDrain chunks term) (pre ++ .closeEv :: post)).writes =
        (runPull (mkPullDrain chunks term) pre).writes ∧
      (runPull (mkPullDrain chunks term)
        (pre ++ .closeEv :: post)).cancelCount = 1) := by
  constructor
  · intro pre post hdone
    have hsplit : runPush mkPushDrain (pre ++ .closeRespEv :: post) =
        runPush (pushDrainStep (runPush mkPushDrain pre) .closeRespEv) post := by
      simp [runPush, List.foldl_append]
    set sp := runPush mkPushDrain pre with hsp
    have hd0 : sp.destroyCount = 0 :=
      runPush_destroyCount_of_notDone pre mkPushDrain hdone rfl
    have hmid : pushDrainStep sp .closeRespEv =
        { sp with
          responseOpen := false
          streamDone := true
          destroyed := true
          destroyCount := sp.destroyCount + 1 } := by
      simp [pushDrainStep, hdone]
    rw [hsplit, hmid]
    rcases runPush_frozen_after_destroy post
      { sp with
        responseOpen := false
        streamDone := true
        destroyed := true
        destroyCount := sp.destroyCount + 1 } rfl rfl with ⟨hw, hc⟩
    rw [hw, hc]
    exact ⟨rfl, by rw [hd0]⟩
  · intro chunks term pre post hdone
    have hsplit : runPull (mkPullDrain chunks term) (pre ++ .closeEv :: post) =
        runPull (pullStep (runPull (mkPullDrain chunks term) pre) .closeEv)
          post := by
      simp [runPull, List.foldl_append]
    set sp := runPull (mkPullDrain chunks term) pre with hsp
    have hd0 : sp.cancelCount = 0 :=
      runPull_cancelCount_of_notDone pre (mkPullDrain chunks term) hdone rfl
    have hmid : pullStep sp .closeEv =
        { sp with
          responseOpen := false
          streamDone := true
          cancelled := true
          cancelCount := sp.cancelCount + 1 } := by
      simp [pullStep, hdone]
    rw [hsplit, hmid]
    rcases runPull_frozen_after_close post
      { sp with
        responseOpen := false
        streamDone := true
        cancelled := true
        cancelCount := sp.cancelCount + 1 } rfl rfl with ⟨hw, hc⟩
    rw [hw, hc]
    exact ⟨rfl, by rw [hd0]⟩

/-- Witness for C5: a push drain that wrote one chunk before the response
closed, with a second chunk and a repeated close signal delivered after;
a pull drain that wrote one chunk before the response closed, with more
loop steps and a repeated close delivered after. -/
theorem C5_close_stops_writes_witness :
    ((runPush mkPushDrain
        ([.dataEv [1]] ++ .closeRespEv ::
          [.dataEv [2], .closeRespEv, .closeSrcEv])).writes =
      (runPush mkPushDrain [.dataEv [1]]).writes ∧
    (runPush mkPushDrain
        ([.dataEv [1]] ++ .closeRespEv ::
          [.dataEv [2], .closeRespEv, .closeSrcEv])).destroyCount = 1) ∧
    ((runPull (mkPullDrain [[1], [2]] none)
        ([.iter] ++ .closeEv :: [.iter, .closeEv, .iter])).writes =
      (runPull (mkPullDrain [[1], [2]] none) [.iter]).writes ∧
    (runPull (mkPullDrain [[1], [2]] none)
        ([.iter] ++ .closeEv :: [.iter, .closeEv, .iter])).cancelCount = 1) :=
  ⟨C5_close_stops_writes_and_cancels_once.1 [.dataEv [1]]
      [.dataEv [2], .closeRespEv, .closeSrcEv] (by decide),
   C5_close_stops_writes_and_cancels_once.2 [[1], [2]] none [.iter]
      [.iter, .closeEv, .iter] (by decide)⟩

/-- A schedule of `n` undisturbed loop iterations (no close event). -/
def iters (n : Nat) : List PullEv := List.replicate n .iter

/-- The observable result of calling a JS function: a normal return of
`undefined`, or a thrown/rejected error. -/
inductive CallResult where
  | ret : CallResult
  | thrown : JsVal → CallResult
  deriving DecidableEq, Repr

/-- The settled outcome of the pull drain's promise when the loop runs
undisturbed to completion: rejected with the loop's re-thrown error, or
fulfilled. -/
def pullDrainOutcome (chunks : List (List Nat)) (term : Option JsVal) :
    CallResult :=
  match (runPull (mkPullDrain chunks term) (iters (chunks.length + 1))).errored
    with
  | some e => .thrown e
  | none => .ret

/-- A body passed to `streamToNodeResponse`: a pull-style
`ReadableStream` (it has `getReader`), modelled by its content, or a
push-style Node `Readable`. -/
inductive NodeBody where
  | pullBody : List (List Nat) → Option JsVal → NodeBody
  | pushBody : NodeBody
  deriving DecidableEq, Repr

/-- What a call to `streamToNodeResponse` produces: the result its
caller observes, and the settled outcome of the drain promise the
function started (`none` when no drain was started). -/
structure DispatchResult where
  callerResult : CallResult
  drainOutcome : Option CallResult
  deriving DecidableEq, Repr

/-- `streamToNodeResponse(stream, response, onWrite)`: a null stream
returns immediately; otherwise it dispatches on `'getReader' in stream`
and calls the matching async drain **without awaiting or returning its
promise** — the source has no `return` and no `await` on either branch —
so the caller always observes a plain `undefined` return, and the
drain's outcome lives only in the floating promise. The push drain's
promise fulfills once the listeners are attached (its body has no
`await` and throws nothing). -/
def streamToNodeResponse (body : Option NodeBody) : DispatchResult :=
  match body with
  | none => ⟨.ret, none⟩
  | some (.pullBody chunks term) => ⟨.ret, some (pullDrainOutcome chunks term)⟩
  | some .pushBody => ⟨.ret, some .ret⟩

theorem runPull_iters_error (chunks : List (List Nat)) (s : PullDrain)
    (e : JsVal) (hf : s.finished = false) (ho : s.responseOpen = true)
    (hc : s.cancelled = false) (hch : s.chunks = chunks)
    (ht : s.term = some e) :
    (runPull s (iters (chunks.length + 1))).errored = some e ∧
    (runPull s (iters (chunks.length + 1))).streamDone = true := by
  induction chunks generalizing s with
  | nil =>
    simp [iters, runPull, pullStep, hf, ho, hc, hch, ht, pullExit]
  | cons c rest ih =>
    have hstep : pullStep s .iter =
        { s with chunks := rest, writes := s.writes ++ [c] } := by
      simp [pullStep, hf, ho, hc, hch]
    have hrep : iters ((c :: rest).length + 1) =
        .iter :: iters (rest.length + 1) := by
      simp [iters, List.replicate_succ]
    rw [hrep]
    show (runPull (pullStep s .iter) (iters (rest.length + 1))).errored =
        some e ∧
      (runPull (pullStep s .iter) (iters (rest.length + 1))).streamDone = true
    rw [hstep]
    exact ih { s with chunks := rest, writes := s.writes ++ [c] }
      hf ho hc rfl ht

/-- Claim C7 (counterexample): for a pull-style stream whose first read
rejects with `"boom"`, the drain promise rejects with that error, yet the
caller of `streamToNodeResponse` observes a plain `undefined` return —
the function neither awaits nor returns the drain promise — so the
caller does not observe the error, contradicting the claim's final part. -/
theorem C7_caller_observes_error_counterexample :
    (streamToNodeResponse
        (some (.pullBody [] (some (.strV "boom"))))).drainOutcome =
      some (.thrown (.strV "boom")) ∧
    (streamToNodeResponse
        (some (.pullBody [] (some (.strV "boom"))))).callerResult = .ret ∧
    CallResult.ret ≠ CallResult.thrown (.strV "boom") := by
  refine ⟨rfl, rfl, ?_⟩
  decide

/-- Claim C7 (amended): when a `read()` rejects, the loop marks the done
flag and re-raises that same error, rejecting the promise of
`streamReadableStreamToResponse` (the drain operation); but
`streamToNodeResponse` discards that promise, so its own caller observes
a normal `undefined` return rather than the error. -/
theorem C7_read_error_rethrown_not_returned (chunks : List (List Nat))
    (e : JsVal) :
    (runPull (mkPullDrain chunks (some e))
      (iters (chunks.length + 1))).errored = some e ∧
    (runPull (mkPullDrain chunks (some e))
      (iters (chunks.length + 1))).streamDone = true ∧
    (streamToNodeResponse (some (.pullBody chunks (some e)))).drainOutcome =
      some (.thrown e) ∧
    (streamToNodeResponse (some (.pullBody chunks (some e)))).callerResult =
      .ret := by
  rcases runPull_iters_error chunks (mkPullDrain chunks (some e)) e
    rfl rfl rfl rfl rfl with ⟨h1, h2⟩
  refine ⟨h1, h2, ?_, rfl⟩
  simp [streamToNodeResponse, pullDrainOutcome, h1]

end BodyStreams
